import Mathlib

/-!
Verification of the Hytale region-file codec scripts (WorldPainter tooling).

The development shallowly embeds the binary decoding logic of
`compare_chunks.py` and `check_levels.py`: byte buffers are lists of
naturals (each a byte value), reads that can fail (Python raising
IndexError or struct.error on short input) return Option, and Python
slices, which silently truncate, are modelled by drop/take.
-/

namespace WorldPainter

/-- A byte buffer: a list of byte values (naturals, meant to be < 256). -/
abbrev Bytes := List Nat

/-- Python slice data[pos:pos+n]: truncates silently at the end of the buffer. -/
def pySlice (data : Bytes) (pos n : Nat) : Bytes :=
  (data.drop pos).take n

/-- Read one byte, data[pos]; fails (IndexError) if out of range. -/
def readByte (data : Bytes) (pos : Nat) : Option (Nat × Nat) :=
  if pos < data.length then some (data.getD pos 0, pos + 1) else none

/-- struct.unpack of a big-endian u16 at pos; fails (struct.error) on a short slice. -/
def readU16BE (data : Bytes) (pos : Nat) : Option (Nat × Nat) :=
  if pos + 2 ≤ data.length then
    some (data.getD pos 0 * 256 + data.getD (pos + 1) 0, pos + 2)
  else none

/-- struct.unpack of a big-endian u32 at pos; fails (struct.error) on a short slice. -/
def readU32BE (data : Bytes) (pos : Nat) : Option (Nat × Nat) :=
  if pos + 4 ≤ data.length then
    some (data.getD pos 0 * 16777216 + data.getD (pos + 1) 0 * 65536 +
          data.getD (pos + 2) 0 * 256 + data.getD (pos + 3) 0, pos + 4)
  else none

/-- struct.unpack of a little-endian u16 at pos. -/
def readU16LE (data : Bytes) (pos : Nat) : Option (Nat × Nat) :=
  if pos + 2 ≤ data.length then
    some (data.getD pos 0 + data.getD (pos + 1) 0 * 256, pos + 2)
  else none

/-- struct.unpack of a little-endian u32 at pos. -/
def readU32LE (data : Bytes) (pos : Nat) : Option (Nat × Nat) :=
  if pos + 4 ≤ data.length then
    some (data.getD pos 0 + data.getD (pos + 1) 0 * 256 +
          data.getD (pos + 2) 0 * 65536 + data.getD (pos + 3) 0 * 16777216, pos + 4)
  else none

/-- Two byte values interpreted as a signed little-endian 16-bit integer. -/
def i16le (b0 b1 : Nat) : Int :=
  let raw : Nat := b0 + b1 * 256
  if raw < 32768 then (raw : Int) else (raw : Int) - 65536

/-- struct.unpack of a signed little-endian i16 at pos. -/
def readI16LE (data : Bytes) (pos : Nat) : Option (Int × Nat) :=
  if pos + 2 ≤ data.length then
    some (i16le (data.getD pos 0) (data.getD (pos + 1) 0), pos + 2)
  else none

/-- MAGIC_STRING = b"HytaleIndexedStorage" (20 bytes). -/
def MAGIC_STRING : Bytes :=
  [72, 121, 116, 97, 108, 101, 73, 110, 100, 101, 120, 101, 100, 83, 116, 111, 114, 97, 103, 101]

/-- HEADER_LENGTH constant of the scripts. -/
def HEADER_LENGTH : Nat := 32

/-- read_region_header: f.read(20) compared against the magic (raises ValueError on
mismatch, modelled as none), then version, blob_count, segment_size as big-endian u32. -/
def read_region_header (data : Bytes) : Option (Nat × Nat × Nat) :=
  if pySlice data 0 20 = MAGIC_STRING then do
    let (version, p1) ← readU32BE data 20
    let (blobCount, p2) ← readU32BE data p1
    let (segmentSize, _) ← readU32BE data p2
    pure (version, blobCount, segmentSize)
  else none

/-- read_blob_index: blob_count big-endian u32 values starting right after the header. -/
def read_blob_index (data : Bytes) : Nat → Nat → Option (List Nat × Nat)
  | pos, 0 => some ([], pos)
  | pos, n + 1 => do
    let (idx, p1) ← readU32BE data pos
    let (rest, p2) ← read_blob_index data p1 n
    pure (idx :: rest, p2)

/-- Slot location step of read_chunk: None when the blob index entry is 0, otherwise
the byte offset HEADER_LENGTH + blob_count*4 + (entry-1)*segment_size. -/
def locate (blobIndex : List Nat) (blobCount segmentSize slot : Nat) : Option Nat :=
  let entry := blobIndex.getD slot 0
  if entry = 0 then none
  else some (HEADER_LENGTH + blobCount * 4 + (entry - 1) * segmentSize)

/-- Raw blob read step of read_chunk: seek to position, read src_length and
compressed_length as big-endian u32 (struct.error if fewer than 4 bytes remain,
modelled as none), then f.read(compressed_length), which silently returns fewer
bytes when the file ends early. -/
def read_raw_blob (file : Bytes) (position : Nat) : Option (Nat × Nat × Bytes) := do
  let (srcLength, p1) ← readU32BE file position
  let (compressedLength, p2) ← readU32BE file p1
  pure (srcLength, compressedLength, pySlice file p2 compressedLength)

/-- One palette entry of a block or fluid section: internal_id (u8),
name (raw bytes of the UTF-8 string), count (u16 BE). -/
structure PaletteEntry where
  internalId : Nat
  name : Bytes
  count : Nat
deriving DecidableEq, Repr

/-- Entry-reading loop shared by analyze_fluid_section and analyze_block_section:
internal_id (1 byte), str_len (u16 BE), name (a slice of str_len bytes, silently
truncated by Python slicing), count (u16 BE), repeated entry_count times. -/
def readEntries (data : Bytes) : Nat → Nat → Option (List PaletteEntry × Nat)
  | pos, 0 => some ([], pos)
  | pos, n + 1 => do
    let (iid, p1) ← readByte data pos
    let (strLen, p2) ← readU16BE data p1
    let name := pySlice data p2 strLen
    let (cnt, p4) ← readU16BE data (p2 + strLen)
    let (rest, pEnd) ← readEntries data p4 n
    pure (⟨iid, name, cnt⟩ :: rest, pEnd)

/-- Per-voxel index extraction of the HALF_BYTE fluid voxel array
(analyze_fluid_section, block-data loop): the even voxel of a byte comes from the
HIGH nibble and the odd voxel from the LOW nibble. -/
def fluid_nibble (blockData : Bytes) (i : Nat) : Nat :=
  let byteIdx := i / 2
  if i % 2 = 0 then (blockData.getD byteIdx 0 >>> 4) &&& 0xF
  else blockData.getD byteIdx 0 &&& 0xF

/-- Per-voxel level extraction of the nibble-packed level array
(analyze_fluid_section, level-data loop): the even voxel of a byte comes from the
LOW nibble and the odd voxel from the HIGH nibble. -/
def level_nibble (levelData : Bytes) (i : Nat) : Nat :=
  let byteIdx := i / 2
  if i % 2 = 0 then levelData.getD byteIdx 0 &&& 0xF
  else (levelData.getD byteIdx 0 >>> 4) &&& 0xF

/-- Level extraction loop of check_levels.py, written there with bit operations
(bi2 = i >> 1, parity via i & 1) but with the same low-for-even convention. -/
def check_levels_nibble (ld : Bytes) (i : Nat) : Nat :=
  let bi2 := i >>> 1
  if i &&& 1 = 0 then ld.getD bi2 0 &&& 0xF
  else (ld.getD bi2 0 >>> 4) &&& 0xF

/-- Result of analyze_fluid_section: the decoded fields plus pos, the total number
of bytes consumed. blockData and levelData hold the raw packed arrays; the
per-voxel values are fluid_nibble and level_nibble of them. -/
structure FluidSection where
  paletteType : Nat
  entries : List PaletteEntry
  blockData : Bytes
  hasLevels : Bool
  levelData : Bytes
  pos : Nat
deriving DecidableEq, Repr

/-- analyze_fluid_section on the Data buffer of a Fluid sub-document.
Reads palette_type (1 byte); if EMPTY (0) reads only the has_levels flag and
stops.  Otherwise reads entry_count (u16 BE) and the entries, then the voxel
array: for HALF_BYTE a 16384-byte slice (the counting loop then indexes all
16384 bytes, raising IndexError on a short slice, hence the length guard), for
BYTE a 32768-byte slice (its loop never indexes, so a short slice is accepted),
for any other tag no bytes.  Then has_levels (1 byte) and, when set, a
16384-byte level slice (again fully indexed by the level loop). -/
def analyze_fluid_section (data : Bytes) : Option FluidSection := do
  let (paletteType, p1) ← readByte data 0
  if paletteType = 0 then
    let (hl, p2) ← readByte data p1
    pure ⟨0, [], [], hl != 0, [], p2⟩
  else do
    let (entryCount, p2) ← readU16BE data p1
    let (entries, p3) ← readEntries data p2 entryCount
    let (blockData, p4) ←
      if paletteType = 1 then
        if p3 + 16384 ≤ data.length then some (pySlice data p3 16384, p3 + 16384)
        else none
      else if paletteType = 2 then some (pySlice data p3 32768, p3 + 32768)
      else some (([] : Bytes), p3)
    let (hlByte, p5) ← readByte data p4
    if hlByte ≠ 0 then
      if p5 + 16384 ≤ data.length then
        pure ⟨paletteType, entries, blockData, true, pySlice data p5 16384, p5 + 16384⟩
      else none
    else
      pure ⟨paletteType, entries, blockData, false, [], p5⟩

/-- Counting loop of analyze_fluid_section over the 32768 voxels of a HALF_BYTE
array: counts the voxels whose extracted nibble is nonzero. -/
def count_fluid_blocks (blockData : Bytes) : Nat :=
  (List.range 32768).foldl
    (fun acc i => if fluid_nibble blockData i ≠ 0 then acc + 1 else acc) 0

/-- Counting loop of analyze_fluid_section over the level array. -/
def count_nonzero_levels (levelData : Bytes) : Nat :=
  (List.range 32768).foldl
    (fun acc i => if level_nibble levelData i ≠ 0 then acc + 1 else acc) 0

/-- Result of analyze_block_section: the optional migration-version prefix, the
palette tag, the entries and the number of bytes consumed.  The block analyzer
stops after the entry table: it reads neither a voxel array nor a has_levels
flag. -/
structure BlockSection where
  migrationVersion : Option Nat
  paletteType : Nat
  entries : List PaletteEntry
  pos : Nat
deriving DecidableEq, Repr

/-- Migration-prefix step of analyze_block_section: version is
block_doc.get("Version", 0) (0 when the field is absent); when version >= 6 a
4-byte big-endian migration version is consumed first, otherwise nothing is. -/
def read_migration (version : Int) (data : Bytes) : Option (Option Nat × Nat) :=
  if 6 ≤ version then
    match readU32BE data 0 with
    | some (v, p) => some (some v, p)
    | none => none
  else some (none, 0)

/-- analyze_block_section continued: after the optional migration prefix comes
palette_type (1 byte); if EMPTY the analyzer returns at once, otherwise it reads
entry_count (u16 BE) and the entries and returns. -/
def analyze_block_section (version : Int) (data : Bytes) : Option BlockSection := do
  let (mig, p0) ← read_migration version data
  let (paletteType, p1) ← readByte data p0
  if paletteType = 0 then
    pure ⟨mig, 0, [], p1⟩
  else do
    let (entryCount, p2) ← readU16BE data p1
    let (entries, p3) ← readEntries data p2 entryCount
    pure ⟨mig, paletteType, entries, p3⟩

/-- Height palette reading loop of analyze_heightmap: palette_count signed
little-endian 16-bit values. -/
def read_height_palette (data : Bytes) : Nat → Nat → Option (List Int × Nat)
  | pos, 0 => some ([], pos)
  | pos, n + 1 => do
    let (h, p1) ← readI16LE data pos
    let (rest, p2) ← read_height_palette data p1 n
    pure (h :: rest, p2)

/-- Result of analyze_heightmap: needs_physics flag, height palette,
declared bitfield length, the bitfield slice actually taken, and the
total number of bytes consumed. -/
structure Heightmap where
  needsPhysics : Bool
  palette : List Int
  bitfieldLength : Nat
  bitfield : Bytes
  pos : Nat
deriving DecidableEq, Repr

/-- analyze_heightmap on the Data buffer of the BlockChunk sub-document:
needs_physics (1 byte), palette_count (u16 LITTLE-endian), palette_count signed
i16 little-endian heights, bitfield_length (u32 little-endian), then the slice
data[pos:pos+bitfield_length] as the packed bitfield (Python slicing: silently
shorter when the buffer ends early). -/
def analyze_heightmap (data : Bytes) : Option Heightmap := do
  let (np, p1) ← readByte data 0
  let (paletteCount, p2) ← readU16LE data p1
  let (palette, p3) ← read_height_palette data p2 paletteCount
  let (bitfieldLength, p4) ← readU32LE data p3
  pure ⟨np != 0, palette, bitfieldLength, pySlice data p4 bitfieldLength, p4 + bitfieldLength⟩

/-- Inner bit-gathering loop of the heightmap sample decoder: for bit in
range(fuel), value |= ((bitfield[(bitIndex+bit)//8] >> ((bitIndex+bit)%8)) & 1) << bit,
guarded by byte_idx < len(bitfield). -/
def extract_bits_go (bitfield : Bytes) (bitIndex : Nat) : Nat → Nat → Nat → Nat
  | value, _bit, 0 => value
  | value, bit, fuel + 1 =>
    let byteIdx := (bitIndex + bit) / 8
    let bitOff := (bitIndex + bit) % 8
    let value' :=
      if byteIdx < bitfield.length then
        value ||| (((bitfield.getD byteIdx 0 >>> bitOff) &&& 1) <<< bit)
      else value
    extract_bits_go bitfield bitIndex value' (bit + 1) fuel

/-- The 10-bit palette index of one heightmap column: ten bits gathered starting
at bit offset col_idx * 10. -/
def extract_height_index (bitfield : Bytes) (colIdx : Nat) : Nat :=
  extract_bits_go bitfield (colIdx * 10) 0 0 10

/-- Palette lookup of the heightmap sample decoder: heights_palette[value] when
value is in range, else the sentinel -1. -/
def height_at (palette : List Int) (idx : Nat) : Int :=
  if idx < palette.length then palette.getD idx 0 else -1

/-- One decoded heightmap sample: x, z, palette index and looked-up height. -/
structure HeightSample where
  x : Nat
  z : Nat
  paletteIdx : Nat
  height : Int
deriving DecidableEq, Repr

/-- Sample loop of analyze_heightmap: the first min(64, 1024) columns, each
decoded with extract_height_index and looked up in the palette. -/
def sample_heights (palette : List Int) (bitfield : Bytes) : List HeightSample :=
  (List.range (min 64 1024)).map (fun colIdx =>
    let value := extract_height_index bitfield colIdx
    ⟨colIdx &&& 0x1F, colIdx >>> 5, value, height_at palette value⟩)

/-- The nibble-order parameter of the specification: which nibble of a packed
byte belongs to the even voxel. -/
inductive NibbleOrder where
  | EvenLow
  | EvenHigh
deriving DecidableEq, Repr

/-- The NibbleOrder-parametric nibble decoder.  The two orders are exactly the
two hardcoded conventions of the source: EvenHigh is the fluid voxel-index loop
and EvenLow is the level loop. -/
def extractNibble : NibbleOrder → Bytes → Nat → Nat
  | NibbleOrder.EvenHigh => fluid_nibble
  | NibbleOrder.EvenLow => level_nibble

/-- Bit k of a byte stream, least-significant-bit-first within each byte
(bit k lives in byte k/8 at in-byte position k%8); 0 past the end. -/
def bit_at (bytes : Bytes) (k : Nat) : Nat :=
  (bytes.getD (k / 8) 0 >>> (k % 8)) &&& 1

/-- The unsigned value of fuel consecutive bits of a byte stream starting at bit
offset k, least-significant-bit-first: bit k is the 1s place, bit k+1 the 2s
place, and so on, crossing byte boundaries as needed. -/
def bits_value (bytes : Bytes) : Nat → Nat → Nat
  | _, 0 => 0
  | k, fuel + 1 => bit_at bytes k + 2 * bits_value bytes (k + 1) fuel

theorem and_fifteen (n : Nat) : n &&& 15 = n % 16 := by
  have h := Nat.and_pow_two_sub_one_eq_mod n 4
  norm_num at h
  exact h

theorem shiftRight_four_and_fifteen (n : Nat) : (n >>> 4) &&& 15 = n / 16 % 16 := by
  rw [and_fifteen, Nat.shiftRight_eq_div_pow]

theorem and_one_mod (n : Nat) : n &&& 1 = n % 2 :=
  Nat.and_one_is_mod n

theorem shiftRight_one_div (n : Nat) : n >>> 1 = n / 2 := by
  simp [Nat.shiftRight_eq_div_pow]

/-- C1: for every byte of a HALF_BYTE nibble-packed array, decoding with
NibbleOrder.EvenLow yields the low nibble of the byte for the even voxel and the
high nibble for the odd voxel, and NibbleOrder.EvenHigh yields the opposite; in
particular on the single byte 0xA5, EvenLow decodes voxel 0 to 5 and voxel 1 to
10, and EvenHigh decodes voxel 0 to 10 and voxel 1 to 5. -/
theorem nibbleOrder_decode_spec (data : Bytes) (i : Nat) :
    (extractNibble NibbleOrder.EvenLow data i =
      if i % 2 = 0 then data.getD (i / 2) 0 % 16 else data.getD (i / 2) 0 / 16 % 16) ∧
    (extractNibble NibbleOrder.EvenHigh data i =
      if i % 2 = 0 then data.getD (i / 2) 0 / 16 % 16 else data.getD (i / 2) 0 % 16) ∧
    extractNibble NibbleOrder.EvenLow [0xA5] 0 = 5 ∧
    extractNibble NibbleOrder.EvenLow [0xA5] 1 = 10 ∧
    extractNibble NibbleOrder.EvenHigh [0xA5] 0 = 10 ∧
    extractNibble NibbleOrder.EvenHigh [0xA5] 1 = 5 := by
  refine ⟨?_, ?_, by decide, by decide, by decide, by decide⟩
  · by_cases h : i % 2 = 0 <;>
      simp [extractNibble, level_nibble, h, Nat.shiftRight_eq_div_pow, and_fifteen]
  · by_cases h : i % 2 = 0 <;>
      simp [extractNibble, fluid_nibble, h, Nat.shiftRight_eq_div_pow, and_fifteen]

/-- C10: the implementation fixes a distinct nibble order per array kind: in the
HALF_BYTE fluid voxel-index loop the even voxel comes from the HIGH nibble and
the odd voxel from the LOW nibble, while in both level loops (compare_chunks and
check_levels) the even voxel comes from the LOW nibble and the odd voxel from
the HIGH nibble; the two conventions genuinely differ (byte 0x50, voxel 0). -/
theorem nibble_order_fixed_per_kind (blockData levelData : Bytes) (i : Nat) :
    fluid_nibble blockData i =
      (if i % 2 = 0 then blockData.getD (i / 2) 0 / 16 % 16
       else blockData.getD (i / 2) 0 % 16) ∧
    level_nibble levelData i =
      (if i % 2 = 0 then levelData.getD (i / 2) 0 % 16
       else levelData.getD (i / 2) 0 / 16 % 16) ∧
    check_levels_nibble levelData i = level_nibble levelData i ∧
    fluid_nibble blockData i = extractNibble NibbleOrder.EvenHigh blockData i ∧
    level_nibble levelData i = extractNibble NibbleOrder.EvenLow levelData i ∧
    fluid_nibble [0x50] 0 ≠ level_nibble [0x50] 0 := by
  refine ⟨?_, ?_, ?_, rfl, rfl, by decide⟩
  · by_cases h : i % 2 = 0 <;>
      simp [fluid_nibble, h, Nat.shiftRight_eq_div_pow, and_fifteen]
  · by_cases h : i % 2 = 0 <;>
      simp [level_nibble, h, Nat.shiftRight_eq_div_pow, and_fifteen]
  · by_cases h : i % 2 = 0 <;>
      simp [check_levels_nibble, level_nibble, and_one_mod, shiftRight_one_div, h]

/-- C4: for every valid slot, locating a chunk returns none iff the blob index
entry of the slot is 0, and otherwise returns exactly the byte offset
32 + blobCount*4 + (blobIndex[slot]-1)*segmentSize. -/
theorem locate_offset_spec (blobIndex : List Nat) (blobCount segmentSize slot : Nat)
    (_hslot : slot < blobIndex.length) :
    (locate blobIndex blobCount segmentSize slot = none ↔ blobIndex.getD slot 0 = 0) ∧
    (blobIndex.getD slot 0 ≠ 0 →
      locate blobIndex blobCount segmentSize slot =
        some (32 + blobCount * 4 + (blobIndex.getD slot 0 - 1) * segmentSize)) := by
  by_cases h : blobIndex.getD slot 0 = 0 <;>
    simp [locate, HEADER_LENGTH, h]

/-- Witness for C4 at a concrete region shape: one slot holding segment number 2,
blobCount 7, segmentSize 100. -/
theorem locate_offset_spec_witness :
    (locate [2] 7 100 0 = none ↔ ([2] : List Nat).getD 0 0 = 0) ∧
    (([2] : List Nat).getD 0 0 ≠ 0 →
      locate [2] 7 100 0 = some (32 + 7 * 4 + (([2] : List Nat).getD 0 0 - 1) * 100)) :=
  locate_offset_spec [2] 7 100 0 (by decide)

theorem length_pySlice (data : Bytes) (pos n : Nat) :
    (pySlice data pos n).length = min n (data.length - pos) := by
  simp [pySlice]

theorem readByte_of_lt {data : Bytes} {pos : Nat} (h : pos < data.length) :
    readByte data pos = some (data.getD pos 0, pos + 1) := by
  rw [readByte, if_pos h]

theorem readByte_eq_some {data : Bytes} {pos b p : Nat}
    (h : readByte data pos = some (b, p)) :
    pos < data.length ∧ b = data.getD pos 0 ∧ p = pos + 1 := by
  rw [readByte] at h
  split_ifs at h with hc
  simp only [Option.some.injEq, Prod.mk.injEq] at h
  exact ⟨hc, h.1.symm, h.2.symm⟩

theorem readU16BE_eq_some {data : Bytes} {pos v p : Nat}
    (h : readU16BE data pos = some (v, p)) :
    pos + 2 ≤ data.length ∧
    v = data.getD pos 0 * 256 + data.getD (pos + 1) 0 ∧ p = pos + 2 := by
  rw [readU16BE] at h
  split_ifs at h with hc
  simp only [Option.some.injEq, Prod.mk.injEq] at h
  exact ⟨hc, h.1.symm, h.2.symm⟩

theorem readU32BE_eq_some {data : Bytes} {pos v p : Nat}
    (h : readU32BE data pos = some (v, p)) :
    pos + 4 ≤ data.length ∧
    v = data.getD pos 0 * 16777216 + data.getD (pos + 1) 0 * 65536 +
        data.getD (pos + 2) 0 * 256 + data.getD (pos + 3) 0 ∧ p = pos + 4 := by
  rw [readU32BE] at h
  split_ifs at h with hc
  simp only [Option.some.injEq, Prod.mk.injEq] at h
  exact ⟨hc, h.1.symm, h.2.symm⟩

theorem readU16LE_eq_some {data : Bytes} {pos v p : Nat}
    (h : readU16LE data pos = some (v, p)) :
    pos + 2 ≤ data.length ∧
    v = data.getD pos 0 + data.getD (pos + 1) 0 * 256 ∧ p = pos + 2 := by
  rw [readU16LE] at h
  split_ifs at h with hc
  simp only [Option.some.injEq, Prod.mk.injEq] at h
  exact ⟨hc, h.1.symm, h.2.symm⟩

theorem readU32LE_eq_some {data : Bytes} {pos v p : Nat}
    (h : readU32LE data pos = some (v, p)) :
    pos + 4 ≤ data.length ∧
    v = data.getD pos 0 + data.getD (pos + 1) 0 * 256 +
        data.getD (pos + 2) 0 * 65536 + data.getD (pos + 3) 0 * 16777216 ∧ p = pos + 4 := by
  rw [readU32LE] at h
  split_ifs at h with hc
  simp only [Option.some.injEq, Prod.mk.injEq] at h
  exact ⟨hc, h.1.symm, h.2.symm⟩

theorem readI16LE_eq_some {data : Bytes} {pos : Nat} {v : Int} {p : Nat}
    (h : readI16LE data pos = some (v, p)) :
    pos + 2 ≤ data.length ∧
    v = i16le (data.getD pos 0) (data.getD (pos + 1) 0) ∧ p = pos + 2 := by
  rw [readI16LE] at h
  split_ifs at h with hc
  simp only [Option.some.injEq, Prod.mk.injEq] at h
  exact ⟨hc, h.1.symm, h.2.symm⟩

/-- C6: region header parsing fails for every buffer that does not begin with the
exact 20-byte magic token, regardless of the bytes that follow, and when the
magic matches (and the 32-byte header is present) reads version, blobCount and
segmentSize as big-endian u32. -/
theorem region_header_magic_spec (data : Bytes) :
    (pySlice data 0 20 ≠ MAGIC_STRING → read_region_header data = none) ∧
    (pySlice data 0 20 = MAGIC_STRING → 32 ≤ data.length →
      read_region_header data =
        some (data.getD 20 0 * 16777216 + data.getD 21 0 * 65536 +
                data.getD 22 0 * 256 + data.getD 23 0,
              data.getD 24 0 * 16777216 + data.getD 25 0 * 65536 +
                data.getD 26 0 * 256 + data.getD 27 0,
              data.getD 28 0 * 16777216 + data.getD 29 0 * 65536 +
                data.getD 30 0 * 256 + data.getD 31 0)) := by
  constructor
  · intro h
    simp [read_region_header, h]
  · intro h hlen
    have h1 : 20 + 4 ≤ data.length := by omega
    have h2 : 24 + 4 ≤ data.length := by omega
    have h3 : 28 + 4 ≤ data.length := by omega
    simp [read_region_header, h, readU32BE, h1, h2, h3]

/-- Witness for C6: a one-byte garbage buffer is rejected; a magic-led header
with version 1, blobCount 2, segmentSize 3 is accepted. -/
theorem region_header_magic_spec_witness :
    read_region_header [5] = none ∧
    read_region_header
        (MAGIC_STRING ++ [0, 0, 0, 1, 0, 0, 0, 2, 0, 0, 0, 3]) = some (1, 2, 3) := by
  constructor
  · exact (region_header_magic_spec [5]).1 (by decide)
  · exact ((region_header_magic_spec
      (MAGIC_STRING ++ [0, 0, 0, 1, 0, 0, 0, 2, 0, 0, 0, 3])).2
        (by decide) (by decide)).trans (by decide)

/-- C7 counterexample: a file declaring compressedLength 4 with only 2 bytes
remaining is read without any error, returning a blob of 2 bytes, shorter than
declared, so the read step does not fail on truncation. -/
theorem read_raw_blob_truncation_cex :
    read_raw_blob [0, 0, 0, 8, 0, 0, 0, 4, 1, 2] 0 = some (8, 4, [1, 2]) ∧
    ([1, 2] : Bytes).length < 4 := by
  exact ⟨by decide, by decide⟩

/-- C7 amended: the raw-blob read fails only when fewer than 4 bytes remain for
one of the two length fields; the data read itself silently truncates, returning
min(compressedLength, remaining) bytes, possibly fewer than declared. -/
theorem read_raw_blob_amended (file : Bytes) (position srcLength compressedLength : Nat)
    (blob : Bytes)
    (h : read_raw_blob file position = some (srcLength, compressedLength, blob)) :
    position + 8 ≤ file.length ∧
    blob = pySlice file (position + 8) compressedLength ∧
    blob.length = min compressedLength (file.length - (position + 8)) := by
  rcases h1 : readU32BE file position with _ | ⟨s, p1⟩
  · rw [read_raw_blob, h1] at h
    cases h
  rcases h2 : readU32BE file p1 with _ | ⟨c, p2⟩
  · rw [read_raw_blob, h1] at h
    simp only [Option.bind_eq_bind, Option.some_bind] at h
    rw [h2] at h
    cases h
  obtain ⟨hl1, hs, hp1⟩ := readU32BE_eq_some h1
  obtain ⟨hl2, hc, hp2⟩ := readU32BE_eq_some h2
  rw [read_raw_blob, h1] at h
  simp only [Option.bind_eq_bind, Option.some_bind] at h
  rw [h2] at h
  simp only [Option.some_bind, Option.pure_def, Option.some.injEq, Prod.mk.injEq] at h
  subst hp1 hp2
  obtain ⟨hss, hcc, hbb⟩ := h
  subst hss hcc
  have e : position + 4 + 4 = position + 8 := by omega
  refine ⟨by omega, ?_, ?_⟩
  · rw [← hbb, e]
  · rw [← hbb, e, length_pySlice]

/-- Witness for C7 amended, at the same truncated file: the blob is the
truncating slice and has length min 4 2 = 2. -/
theorem read_raw_blob_amended_witness :
    0 + 8 ≤ ([0, 0, 0, 8, 0, 0, 0, 4, 1, 2] : Bytes).length ∧
    ([1, 2] : Bytes) = pySlice [0, 0, 0, 8, 0, 0, 0, 4, 1, 2] (0 + 8) 4 ∧
    ([1, 2] : Bytes).length =
      min 4 (([0, 0, 0, 8, 0, 0, 0, 4, 1, 2] : Bytes).length - (0 + 8)) :=
  read_raw_blob_amended [0, 0, 0, 8, 0, 0, 0, 4, 1, 2] 0 8 4 [1, 2] (by decide)

/-- C5 counterexample: on the Block-kind EMPTY body [0x00, 0x00] the block
analyzer consumes exactly 1 byte, not 2: it reads no has_levels flag. -/
theorem empty_section_block_cex :
    (analyze_block_section 0 [0, 0]).map BlockSection.pos = some 1 ∧
    (analyze_block_section 0 [0, 0]).map BlockSection.pos ≠ some 2 := by
  exact ⟨by decide, by decide⟩

/-- C5 amended: a Fluid-kind buffer whose first byte is EMPTY decodes by reading
exactly one further byte as the has_levels flag, consuming 2 bytes in total with
an empty entry list; a Block-kind buffer whose palette tag is EMPTY stops right
after the tag (1 byte consumed when version < 6), reading no has_levels flag. -/
theorem empty_section_decode (data : Bytes) (version : Int)
    (h0 : data.getD 0 0 = 0) (hlen : 2 ≤ data.length) (hv : version < 6) :
    analyze_fluid_section data = some ⟨0, [], [], data.getD 1 0 != 0, [], 2⟩ ∧
    analyze_block_section version data = some ⟨none, 0, [], 1⟩ := by
  have hv6 : ¬ (6 ≤ version) := by omega
  have e0 : 0 < data.length := by omega
  have e1 : 1 < data.length := by omega
  constructor
  · rw [analyze_fluid_section, readByte_of_lt e0]
    simp only [Option.bind_eq_bind, Option.some_bind, Nat.zero_add]
    rw [if_pos h0, readByte_of_lt e1]
    simp only [Option.some_bind]
    rfl
  · rw [analyze_block_section, read_migration, if_neg hv6]
    simp only [Option.bind_eq_bind, Option.some_bind]
    rw [readByte_of_lt e0]
    simp only [Option.some_bind, Nat.zero_add]
    rw [if_pos h0]
    rfl

/-- Witness for C5 amended at the section body [0x00, 0x00]. -/
theorem empty_section_decode_witness :
    analyze_fluid_section [0, 0] =
      some ⟨0, [], [], ([0, 0] : Bytes).getD 1 0 != 0, [], 2⟩ ∧
    analyze_block_section 0 [0, 0] = some ⟨none, 0, [], 1⟩ :=
  empty_section_decode [0, 0] 0 (by decide) (by decide) (by decide)

theorem analyze_block_section_inv (version : Int) (data : Bytes) (r : BlockSection)
    (h : analyze_block_section version data = some r) :
    ∃ p0, read_migration version data = some (r.migrationVersion, p0) ∧
      r.paletteType = data.getD p0 0 := by
  rcases hm : read_migration version data with _ | ⟨mig, p0⟩
  · rw [analyze_block_section, hm] at h
    cases h
  rcases hb : readByte data p0 with _ | ⟨pt, p1⟩
  · rw [analyze_block_section, hm] at h
    simp only [Option.bind_eq_bind, Option.some_bind] at h
    rw [hb] at h
    cases h
  obtain ⟨-, hpt, -⟩ := readByte_eq_some hb
  rw [analyze_block_section, hm] at h
  simp only [Option.bind_eq_bind, Option.some_bind] at h
  rw [hb] at h
  simp only [Option.some_bind] at h
  by_cases hz : pt = 0
  · rw [if_pos hz] at h
    simp only [Option.pure_def, Option.some.injEq] at h
    subst h
    refine ⟨p0, rfl, ?_⟩
    show (0 : Nat) = data.getD p0 0
    omega
  · rw [if_neg hz] at h
    rcases h16 : readU16BE data p1 with _ | ⟨ec, p2⟩
    · rw [h16] at h
      simp at h
    rcases he : readEntries data p2 ec with _ | ⟨es, p3⟩
    · rw [h16] at h
      simp only [Option.some_bind] at h
      rw [he] at h
      simp at h
    rw [h16] at h
    simp only [Option.some_bind] at h
    rw [he] at h
    simp only [Option.some_bind, Option.pure_def, Option.some.injEq] at h
    subst h
    exact ⟨p0, rfl, hpt⟩

/-- C9: for a Block sub-document with Version at least 6 the decoder first
consumes a 4-byte big-endian migration-version prefix and reads the palette tag
from byte 4; for Version below 6 (absent meaning 0) no prefix is consumed and
the palette tag is the first byte of the Data buffer. -/
theorem block_section_version_prefix (version : Int) (data : Bytes) (r : BlockSection)
    (h : analyze_block_section version data = some r) :
    (6 ≤ version →
      r.migrationVersion =
        some (data.getD 0 0 * 16777216 + data.getD 1 0 * 65536 +
              data.getD 2 0 * 256 + data.getD 3 0) ∧
      r.paletteType = data.getD 4 0) ∧
    (version < 6 → r.migrationVersion = none ∧ r.paletteType = data.getD 0 0) := by
  obtain ⟨p0, hm, hpt⟩ := analyze_block_section_inv version data r h
  constructor
  · intro h6
    rw [read_migration, if_pos h6] at hm
    rcases h32 : readU32BE data 0 with _ | ⟨v, p⟩
    · rw [h32] at hm
      cases hm
    obtain ⟨-, hv, hp⟩ := readU32BE_eq_some h32
    rw [h32] at hm
    simp only [Option.some.injEq, Prod.mk.injEq] at hm
    obtain ⟨hm1, hm2⟩ := hm
    constructor
    · rw [← hm1, hv]
    · rw [hpt, ← hm2, hp]
  · intro hlt
    rw [read_migration, if_neg (by omega)] at hm
    simp only [Option.some.injEq, Prod.mk.injEq] at hm
    obtain ⟨hm1, hm2⟩ := hm
    exact ⟨hm1.symm, by rw [hpt, ← hm2]⟩

/-- Witness for C9: a version-6 Block body with prefix bytes [0,0,0,7] and tag at
byte 4, and a version-0 Block body with the tag at byte 0. -/
theorem block_section_version_prefix_witness :
    (((6 : Int) ≤ 6 →
      (some 7 : Option Nat) =
        some (([0, 0, 0, 7, 0] : Bytes).getD 0 0 * 16777216 +
              ([0, 0, 0, 7, 0] : Bytes).getD 1 0 * 65536 +
              ([0, 0, 0, 7, 0] : Bytes).getD 2 0 * 256 +
              ([0, 0, 0, 7, 0] : Bytes).getD 3 0) ∧
      (0 : Nat) = ([0, 0, 0, 7, 0] : Bytes).getD 4 0) ∧
    ((6 : Int) < 6 → (some 7 : Option Nat) = none ∧
      (0 : Nat) = ([0, 0, 0, 7, 0] : Bytes).getD 0 0)) ∧
    (((6 : Int) ≤ 0 →
      (none : Option Nat) =
        some (([0] : Bytes).getD 0 0 * 16777216 +
              ([0] : Bytes).getD 1 0 * 65536 +
              ([0] : Bytes).getD 2 0 * 256 +
              ([0] : Bytes).getD 3 0) ∧
      (0 : Nat) = ([0] : Bytes).getD 4 0) ∧
    ((0 : Int) < 6 → (none : Option Nat) = none ∧
      (0 : Nat) = ([0] : Bytes).getD 0 0)) := by
  constructor
  · exact block_section_version_prefix 6 [0, 0, 0, 7, 0] ⟨some 7, 0, [], 5⟩ (by decide)
  · exact block_section_version_prefix 0 [0] ⟨none, 0, [], 1⟩ (by decide)

theorem lor_two_pow_of_lt {v b : Nat} (hv : v < 2 ^ b) : v ||| 2 ^ b = v + 2 ^ b := by
  apply Nat.eq_of_testBit_eq
  intro j
  have h2 : v + 2 ^ b = 2 ^ b * 1 + v := by ring
  rcases Nat.lt_or_ge j b with hj | hj
  · have h1 : Nat.testBit (2 ^ b) j = false := by
      rw [Nat.testBit_two_pow]
      simp only [decide_eq_false_iff_not]
      omega
    rw [Nat.testBit_or, h1, Bool.or_false, h2,
      Nat.testBit_mul_pow_two_add 1 hv j, if_pos hj]
  · have h1 : Nat.testBit v j = false :=
      Nat.testBit_lt_two_pow (lt_of_lt_of_le hv (Nat.pow_le_pow_right (by norm_num) hj))
    rw [Nat.testBit_or, h1, Bool.false_or, h2,
      Nat.testBit_mul_pow_two_add 1 hv j, if_neg (by omega), Nat.testBit_two_pow]
    by_cases hbj : b = j
    · subst hbj
      simp [Nat.testBit_one_zero]
    · have h3 : Nat.testBit 1 (j - b) = false := by
        have e : (1 : Nat) = 2 ^ 0 := rfl
        rw [e, Nat.testBit_two_pow]
        simp only [decide_eq_false_iff_not]
        omega
      rw [h3]
      simp [hbj]

theorem or_bit_shift {v c b : Nat} (hv : v < 2 ^ b) (hc : c ≤ 1) :
    v ||| c <<< b = v + c * 2 ^ b := by
  rcases Nat.le_one_iff_eq_zero_or_eq_one.mp hc with h0 | h1
  · subst h0
    simp [Nat.zero_shiftLeft]
  · subst h1
    rw [Nat.one_shiftLeft, lor_two_pow_of_lt hv, one_mul]

theorem bits_value_lt (bytes : Bytes) : ∀ fuel k, bits_value bytes k fuel < 2 ^ fuel := by
  intro fuel
  induction fuel with
  | zero =>
    intro k
    simp [bits_value]
  | succ n ih =>
    intro k
    have h1 : bit_at bytes k ≤ 1 := Nat.and_le_right
    have h2 := ih (k + 1)
    have h3 : 2 ^ (n + 1) = 2 * 2 ^ n := by ring
    simp only [bits_value]
    omega

theorem extract_bits_go_spec (bitfield : Bytes) (k : Nat) :
    ∀ fuel bit value, value < 2 ^ bit →
      extract_bits_go bitfield k value bit fuel =
        value + 2 ^ bit * bits_value bitfield (k + bit) fuel := by
  intro fuel
  induction fuel with
  | zero =>
    intro bit value hv
    simp [extract_bits_go, bits_value]
  | succ n ih =>
    intro bit value hv
    simp only [extract_bits_go]
    have hc1 : (bitfield.getD ((k + bit) / 8) 0 >>> ((k + bit) % 8)) &&& 1 ≤ 1 :=
      Nat.and_le_right
    have hca : (bitfield.getD ((k + bit) / 8) 0 >>> ((k + bit) % 8)) &&& 1 =
        bit_at bitfield (k + bit) := rfl
    have hpow : 2 ^ (bit + 1) = 2 ^ bit + 2 ^ bit := by ring
    have hterm : ((bitfield.getD ((k + bit) / 8) 0 >>> ((k + bit) % 8)) &&& 1) * 2 ^ bit
        ≤ 2 ^ bit := by
      calc ((bitfield.getD ((k + bit) / 8) 0 >>> ((k + bit) % 8)) &&& 1) * 2 ^ bit
          ≤ 1 * 2 ^ bit := Nat.mul_le_mul_right _ hc1
        _ = 2 ^ bit := one_mul _
    have harg : k + (bit + 1) = k + bit + 1 := by ring
    by_cases hguard : (k + bit) / 8 < bitfield.length
    · rw [if_pos hguard]
      have hv2 : value ||| ((bitfield.getD ((k + bit) / 8) 0 >>> ((k + bit) % 8)) &&& 1)
          <<< bit < 2 ^ (bit + 1) := by
        rw [or_bit_shift hv hc1]
        omega
      rw [ih (bit + 1) _ hv2, or_bit_shift hv hc1]
      rw [show bits_value bitfield (k + bit) (n + 1) =
        bit_at bitfield (k + bit) + 2 * bits_value bitfield (k + bit + 1) n from rfl]
      rw [← hca, harg]
      ring
    · rw [if_neg hguard]
      have hc0 : (bitfield.getD ((k + bit) / 8) 0 >>> ((k + bit) % 8)) &&& 1 = 0 := by
        have hout : bitfield.getD ((k + bit) / 8) 0 = 0 := by
          rw [List.getD_eq_getElem?_getD, List.getElem?_eq_none (by omega)]
          rfl
        rw [hout]
        simp
      have hv2 : value < 2 ^ (bit + 1) :=
        lt_of_lt_of_le hv (Nat.pow_le_pow_right (by norm_num) (by omega))
      rw [ih (bit + 1) _ hv2]
      rw [show bits_value bitfield (k + bit) (n + 1) =
        bit_at bitfield (k + bit) + 2 * bits_value bitfield (k + bit + 1) n from rfl]
      rw [← hca, hc0, harg]
      ring

/-- C2: for every heightmap bitfield and column index, the decoder extracts the
10-bit unsigned palette index starting at bit offset columnIndex*10,
least-significant-bit-first and crossing byte boundaries (a value below 1024),
uses it to index the height palette in the sample loop, and on the test vector
heightPalette = [-64, 0, 64, 128] with bitfield bytes [0b00000001, 0b00000000]
column 0 decodes to palette index 1 and height 0. -/
theorem heightmap_bit_extraction_spec (bitfield : Bytes) (colIdx : Nat) (palette : List Int) :
    extract_height_index bitfield colIdx = bits_value bitfield (colIdx * 10) 10 ∧
    extract_height_index bitfield colIdx < 1024 ∧
    sample_heights palette bitfield =
      (List.range 64).map (fun c =>
        ⟨c % 32, c / 32, extract_height_index bitfield c,
         height_at palette (extract_height_index bitfield c)⟩) ∧
    extract_height_index [1, 0] 0 = 1 ∧
    height_at [-64, 0, 64, 128] (extract_height_index [1, 0] 0) = 0 := by
  have hmain : ∀ c, extract_height_index bitfield c = bits_value bitfield (c * 10) 10 := by
    intro c
    rw [extract_height_index, extract_bits_go_spec bitfield (c * 10) 10 0 0 (by norm_num)]
    simp
  refine ⟨hmain colIdx, ?_, ?_, by decide, by decide⟩
  · rw [hmain colIdx]
    have h := bits_value_lt bitfield 10 (colIdx * 10)
    norm_num at h
    exact h
  · rw [sample_heights, show min 64 1024 = 64 from by norm_num]
    congr 1
    funext c
    have h1 : c &&& 31 = c % 32 := by
      have h := Nat.and_pow_two_sub_one_eq_mod c 5
      norm_num at h
      exact h
    have h2 : c >>> 5 = c / 32 := by
      rw [Nat.shiftRight_eq_div_pow]
    rw [h1, h2]

theorem read_height_palette_spec (data : Bytes) :
    ∀ n pos palette pos2, read_height_palette data pos n = some (palette, pos2) →
      palette.length = n ∧ pos2 = pos + 2 * n ∧
      ∀ j, j < n → palette.getD j 0 =
        i16le (data.getD (pos + 2 * j) 0) (data.getD (pos + 2 * j + 1) 0) := by
  intro n
  induction n with
  | zero =>
    intro pos palette pos2 h
    simp only [read_height_palette, Option.some.injEq, Prod.mk.injEq] at h
    obtain ⟨h1, h2⟩ := h
    refine ⟨by rw [← h1]; rfl, by omega, ?_⟩
    intro j hj
    exact absurd hj (by omega)
  | succ n ih =>
    intro pos palette pos2 h
    rw [read_height_palette] at h
    rcases hr : readI16LE data pos with _ | ⟨v, p1⟩
    · rw [hr] at h
      simp at h
    rw [hr] at h
    simp only [Option.bind_eq_bind, Option.some_bind] at h
    rcases hrest : read_height_palette data p1 n with _ | ⟨rest, p2⟩
    · rw [hrest] at h
      simp at h
    rw [hrest] at h
    simp only [Option.some_bind, Option.pure_def, Option.some.injEq, Prod.mk.injEq] at h
    obtain ⟨hpal, hpos⟩ := h
    obtain ⟨hl, hv, hp1⟩ := readI16LE_eq_some hr
    obtain ⟨ihl, ihp, ihj⟩ := ih p1 rest p2 hrest
    subst hp1
    refine ⟨by rw [← hpal]; simp [ihl], by omega, ?_⟩
    intro j hj
    rw [← hpal]
    cases j with
    | zero =>
      simpa using hv
    | succ jj =>
      have hjj : jj < n := by omega
      have hstep := ihj jj hjj
      have e1 : pos + 2 + 2 * jj = pos + 2 * (jj + 1) := by ring
      rw [e1] at hstep
      simpa using hstep

/-- C3 counterexample: a heightmap buffer declaring bitfieldLength 4 with only 2
bytes remaining decodes without error, taking only 2 raw bytes as the bitfield,
so the claim that exactly bitfieldLength raw bytes are taken for every buffer
fails. -/
theorem heightmap_bitfield_truncation_cex :
    (analyze_heightmap [0, 1, 0, 5, 0, 4, 0, 0, 0, 9, 9]).map
        (fun r => (r.bitfieldLength, r.bitfield.length)) = some (4, 2) ∧
    (2 : Nat) ≠ 4 := by
  exact ⟨by decide, by decide⟩

/-- C3 amended: the heightmap codec reads paletteCount as u16 little-endian, each
palette height as signed i16 little-endian, and bitfieldLength as u32
little-endian; it then takes min(bitfieldLength, remaining) raw bytes as the
packed bitfield: exactly bitfieldLength bytes whenever the buffer holds that
many, silently fewer otherwise. -/
theorem analyze_heightmap_amended (data : Bytes) (r : Heightmap)
    (h : analyze_heightmap data = some r) :
    r.needsPhysics = (data.getD 0 0 != 0) ∧
    r.palette.length = data.getD 1 0 + data.getD 2 0 * 256 ∧
    (∀ j, j < r.palette.length →
      r.palette.getD j 0 =
        i16le (data.getD (3 + 2 * j) 0) (data.getD (3 + 2 * j + 1) 0)) ∧
    r.bitfieldLength =
      data.getD (3 + 2 * r.palette.length) 0 +
      data.getD (3 + 2 * r.palette.length + 1) 0 * 256 +
      data.getD (3 + 2 * r.palette.length + 2) 0 * 65536 +
      data.getD (3 + 2 * r.palette.length + 3) 0 * 16777216 ∧
    r.bitfield = pySlice data (7 + 2 * r.palette.length) r.bitfieldLength ∧
    r.bitfield.length = min r.bitfieldLength (data.length - (7 + 2 * r.palette.length)) := by
  rcases hb : readByte data 0 with _ | ⟨np, p1⟩
  · rw [analyze_heightmap, hb] at h
    cases h
  rcases h16 : readU16LE data p1 with _ | ⟨pc, p2⟩
  · rw [analyze_heightmap, hb] at h
    simp only [Option.bind_eq_bind, Option.some_bind] at h
    rw [h16] at h
    cases h
  rcases hpal : read_height_palette data p2 pc with _ | ⟨palette, p3⟩
  · rw [analyze_heightmap, hb] at h
    simp only [Option.bind_eq_bind, Option.some_bind] at h
    rw [h16] at h
    simp only [Option.some_bind] at h
    rw [hpal] at h
    cases h
  rcases h32 : readU32LE data p3 with _ | ⟨bl, p4⟩
  · rw [analyze_heightmap, hb] at h
    simp only [Option.bind_eq_bind, Option.some_bind] at h
    rw [h16] at h
    simp only [Option.some_bind] at h
    rw [hpal] at h
    simp only [Option.some_bind] at h
    rw [h32] at h
    cases h
  rw [analyze_heightmap, hb] at h
  simp only [Option.bind_eq_bind, Option.some_bind] at h
  rw [h16] at h
  simp only [Option.some_bind] at h
  rw [hpal] at h
  simp only [Option.some_bind] at h
  rw [h32] at h
  simp only [Option.some_bind, Option.pure_def, Option.some.injEq] at h
  obtain ⟨-, hnp, hp1⟩ := readByte_eq_some hb
  obtain ⟨-, hpc, hp2⟩ := readU16LE_eq_some h16
  obtain ⟨hplen, hp3, hpj⟩ := read_height_palette_spec data pc p2 palette p3 hpal
  obtain ⟨-, hbl, hp4⟩ := readU32LE_eq_some h32
  subst hp1 hp2 hp3 hp4
  have e : 0 + 1 + 2 + 2 * pc + 4 = 7 + 2 * pc := by omega
  have hf1 : r.needsPhysics = (np != 0) := by rw [← h]
  have hf2 : r.palette = palette := by rw [← h]
  have hf3 : r.bitfieldLength = bl := by rw [← h]
  have hf4 : r.bitfield = pySlice data (0 + 1 + 2 + 2 * pc + 4) bl := by rw [← h]
  refine ⟨by rw [hf1, hnp], ?_, ?_, ?_, ?_, ?_⟩
  · rw [hf2, hplen, hpc]
  · intro j hj
    rw [hf2] at hj ⊢
    have hj2 : j < pc := by omega
    have hstep := hpj j hj2
    rw [hstep]
  · rw [hf3, hbl, hf2, hplen]
  · rw [hf4, e, hf3, hf2, hplen]
  · rw [hf4, e, hf3, hf2, hplen, length_pySlice]

/-- A concrete well-formed heightmap buffer: needsPhysics 1, two palette entries
(-1 and 64), bitfieldLength 3, bitfield [7, 8, 9], one trailing unread byte. -/
def hmWitnessBuf : Bytes := [1, 2, 0, 255, 255, 64, 0, 3, 0, 0, 0, 7, 8, 9, 99]

/-- The record analyze_heightmap decodes from hmWitnessBuf. -/
def hmWitnessRec : Heightmap := ⟨true, [-1, 64], 3, [7, 8, 9], 14⟩

/-- Witness for C3 amended at hmWitnessBuf. -/
theorem analyze_heightmap_amended_witness :
    hmWitnessRec.needsPhysics = (hmWitnessBuf.getD 0 0 != 0) ∧
    hmWitnessRec.palette.length = hmWitnessBuf.getD 1 0 + hmWitnessBuf.getD 2 0 * 256 ∧
    (∀ j, j < hmWitnessRec.palette.length →
      hmWitnessRec.palette.getD j 0 =
        i16le (hmWitnessBuf.getD (3 + 2 * j) 0) (hmWitnessBuf.getD (3 + 2 * j + 1) 0)) ∧
    hmWitnessRec.bitfieldLength =
      hmWitnessBuf.getD (3 + 2 * hmWitnessRec.palette.length) 0 +
      hmWitnessBuf.getD (3 + 2 * hmWitnessRec.palette.length + 1) 0 * 256 +
      hmWitnessBuf.getD (3 + 2 * hmWitnessRec.palette.length + 2) 0 * 65536 +
      hmWitnessBuf.getD (3 + 2 * hmWitnessRec.palette.length + 3) 0 * 16777216 ∧
    hmWitnessRec.bitfield =
      pySlice hmWitnessBuf (7 + 2 * hmWitnessRec.palette.length) hmWitnessRec.bitfieldLength ∧
    hmWitnessRec.bitfield.length =
      min hmWitnessRec.bitfieldLength
        (hmWitnessBuf.length - (7 + 2 * hmWitnessRec.palette.length)) :=
  analyze_heightmap_amended hmWitnessBuf hmWitnessRec (by decide)

/-- A HALF_BYTE fluid section body whose single palette entry is out of range for
most voxels: entry_count 1, one entry (id 0, name "w", count 0), 16384 voxel
bytes of 0x55 (both nibbles 5), has_levels 0. -/
def fluidRangeCexBuf : Bytes :=
  [1, 0, 1, 0, 0, 1, 119, 0, 0] ++ (List.replicate 16384 85 ++ [0])

theorem readByte_of_lt' {data : Bytes} {pos : Nat} (h : pos < data.length) :
    readByte data pos = some (data.getD pos 0, pos + 1) :=
  readByte_of_lt h

theorem readU16BE_of_le {data : Bytes} {pos : Nat} (h : pos + 2 ≤ data.length) :
    readU16BE data pos = some (data.getD pos 0 * 256 + data.getD (pos + 1) 0, pos + 2) := by
  rw [readU16BE, if_pos h]

theorem readEntries_zero (data : Bytes) (pos : Nat) :
    readEntries data pos 0 = some ([], pos) := rfl

theorem readEntries_succ (data : Bytes) (pos n : Nat) :
    readEntries data pos (n + 1) =
      (do
        let (iid, p1) ← readByte data pos
        let (strLen, p2) ← readU16BE data p1
        let name := pySlice data p2 strLen
        let (cnt, p4) ← readU16BE data (p2 + strLen)
        let (rest, pEnd) ← readEntries data p4 n
        pure (⟨iid, name, cnt⟩ :: rest, pEnd)) := rfl

/-- Symbolic evaluation of analyze_fluid_section on a HALF_BYTE section built
from a 9-byte header (palette tag 1, one entry named "w"), an arbitrary
16384-byte voxel array and a zero has_levels flag. -/
theorem analyze_halfbyte_eval (bd : Bytes) (hbd : bd.length = 16384) :
    analyze_fluid_section ([1, 0, 1, 0, 0, 1, 119, 0, 0] ++ (bd ++ [0])) =
      some ⟨1, [⟨0, [119], 0⟩], bd, false, [], 16394⟩ := by
  set d : Bytes := [1, 0, 1, 0, 0, 1, 119, 0, 0] ++ (bd ++ [0]) with hd
  have hlen : d.length = 16394 := by
    rw [hd]
    simp [hbd]
  have hdrop : pySlice d 9 16384 = bd := by
    rw [hd, pySlice, List.drop_left' (by simp), List.take_left' hbd]
  have hlast : d.getD (9 + 16384) 0 = 0 := by
    rw [hd, List.getD_eq_getElem?_getD,
      List.getElem?_append_right (by simp),
      List.getElem?_append_right (by simp [hbd]), hbd]
    norm_num
  have g0 : d.getD 0 0 = 1 := rfl
  have g1 : d.getD (0 + 1) 0 = 0 := rfl
  have g2 : d.getD (0 + 1 + 1) 0 = 1 := rfl
  have gec : d.getD (0 + 1) 0 * 256 + d.getD (0 + 1 + 1) 0 = 1 := by
    rw [g1, g2]
  have gs1 : d.getD (0 + 1 + 2 + 1) 0 = 0 := rfl
  have gs2 : d.getD (0 + 1 + 2 + 1 + 1) 0 = 1 := rfl
  have gsl : d.getD (0 + 1 + 2 + 1) 0 * 256 + d.getD (0 + 1 + 2 + 1 + 1) 0 = 1 := by
    rw [gs1, gs2]
  have giid : d.getD (0 + 1 + 2) 0 = 0 := rfl
  have gname : pySlice d (0 + 1 + 2 + 1 + 2) 1 = [119] := rfl
  have gc1 : d.getD (0 + 1 + 2 + 1 + 2 + 1) 0 = 0 := rfl
  have gc2 : d.getD (0 + 1 + 2 + 1 + 2 + 1 + 1) 0 = 0 := rfl
  have gcnt : d.getD (0 + 1 + 2 + 1 + 2 + 1) 0 * 256 + d.getD (0 + 1 + 2 + 1 + 2 + 1 + 1) 0 = 0 := by
    rw [gc1, gc2]
  have hentries : readEntries d (0 + 1 + 2) 1 = some ([⟨0, [119], 0⟩], 9) := by
    show readEntries d (0 + 1 + 2) (0 + 1) = _
    simp only [readEntries_succ,
      readByte_of_lt' (show 0 + 1 + 2 < d.length by omega),
      Option.bind_eq_bind, Option.some_bind,
      readU16BE_of_le (show 0 + 1 + 2 + 1 + 2 ≤ d.length by omega),
      gsl,
      readU16BE_of_le (show 0 + 1 + 2 + 1 + 2 + 1 + 2 ≤ d.length by omega),
      readEntries_zero, giid, gname, gcnt]
    rfl
  simp only [analyze_fluid_section,
    readByte_of_lt' (show 0 < d.length by omega),
    Option.bind_eq_bind, Option.some_bind, g0,
    if_neg (by norm_num : ¬((1 : Nat) = 0)),
    readU16BE_of_le (show 0 + 1 + 2 ≤ d.length by omega),
    gec, hentries,
    if_pos (rfl : (1 : Nat) = 1),
    if_pos (show 9 + 16384 ≤ d.length by omega),
    readByte_of_lt' (show 9 + 16384 < d.length by omega),
    hlast, if_neg (by norm_num : ¬((0 : Nat) ≠ 0)),
    hdrop]
  rfl

/-- C8 counterexample: fluidRangeCexBuf decodes successfully with entryCount 1,
yet the decoded voxel palette index at linear index 0 is 5, which is not
strictly less than the entry count: the decoder enforces no palette-range
invariant. -/
theorem palette_range_cex :
    (analyze_fluid_section fluidRangeCexBuf).map
        (fun r => (r.entries.length, fluid_nibble r.blockData 0)) = some (1, 5) ∧
    ¬ (5 < 1) := by
  constructor
  · rw [fluidRangeCexBuf, analyze_halfbyte_eval (List.replicate 16384 85) (by rw [List.length_replicate])]
    rfl
  · decide

/-- C8 amended: decoded HALF_BYTE voxel indices and level values are bounded by
the nibble width (always below 16), but the decoder never checks them against
entryCount, and a successfully decoded section may contain indices at or above
entryCount. -/
theorem palette_range_amended (data : Bytes) (r : FluidSection) (i : Nat)
    (_h : analyze_fluid_section data = some r) :
    fluid_nibble r.blockData i < 16 ∧ level_nibble r.levelData i < 16 := by
  have hn : ∀ x : Nat, x &&& 15 < 16 := by
    intro x
    rw [and_fifteen]
    exact Nat.mod_lt _ (by norm_num)
  constructor
  · simp only [fluid_nibble]
    split
    · exact hn _
    · exact hn _
  · simp only [level_nibble]
    split
    · exact hn _
    · exact hn _

/-- Witness for C8 amended at the EMPTY fluid body [0x00, 0x00]. -/
theorem palette_range_amended_witness :
    fluid_nibble (⟨0, [], [], false, [], 2⟩ : FluidSection).blockData 0 < 16 ∧
    level_nibble (⟨0, [], [], false, [], 2⟩ : FluidSection).levelData 0 < 16 :=
  palette_range_amended [0, 0] ⟨0, [], [], false, [], 2⟩ 0 (by decide)


end WorldPainter
